import Mathlib

/-!
# Verification of `src/impl/tokenParser.js` (luxon token parser)

A shallow embedding of the token parser: format tokens are compiled to
match-unit descriptors carrying a regular-expression source fragment, the
fragments are assembled into one anchored pattern, the pattern is executed
against the input, and captured groups are distributed back to the
descriptors' deserializers.  External collaborators that live outside the
repository snapshot (`util.js`, the format tokenizer, locale data, zone
constructors) are modelled from the specification at the boundary, as noted
on each such definition.
-/

namespace TokenParser

/-- A raw value extracted from a match: JS values flowing through the parser
are either numbers or strings. -/
inductive Val where
  | vnum (n : Int)
  | vstr (s : String)
deriving DecidableEq, Repr

/-- A format token as produced by the external tokenizer: either literal
text or a symbolic code (`val` is the code, e.g. "yyyy"). -/
structure Token where
  literal : Bool
  val : String
deriving DecidableEq, Repr

/-- Modelled from the spec: zone construction is consumed from outside
("two constructors, one from a signed minute offset, one from a named-zone
identifier string; both are opaque value producers to this core").  The
constructors record the value they were given. -/
inductive Zone where
  | fixedOffset (v : Val)
  | iana (v : Val)
deriving DecidableEq, Repr

/-- JS object property read (first matching key; maps built by `jsSet` have
unique keys). -/
def jsGet {κ : Type} [DecidableEq κ] {α : Type} : List (κ × α) → κ → Option α
  | [], _ => none
  | (k', v) :: rest, k => if k' = k then some v else jsGet rest k

/-- JS object property write: overwrites in place if the key exists
(keeping its position, as JS objects keep insertion order), otherwise
appends. -/
def jsSet {κ : Type} [DecidableEq κ] {α : Type} : List (κ × α) → κ → α → List (κ × α)
  | [], k, v => [(k, v)]
  | (k', v') :: rest, k, v => if k' = k then (k, v) :: rest else (k', v') :: jsSet rest k v

/-- The raw field map: single-character token code to value. -/
abbrev FieldMap := List (Char × Val)

/-- The resolved field set: calendar-field name to value. -/
abbrev RMap := List (String × Val)

/-- Numeric value of a list of decimal digit characters (most significant
first). -/
def digitsToNatAux (acc : Nat) : List Char → Nat
  | [] => acc
  | c :: rest => digitsToNatAux (10 * acc + (c.toNat - 48)) rest

/-- Numeric value of a list of decimal digit characters. -/
def digitsToNat (l : List Char) : Nat := digitsToNatAux 0 l

/-- JS `parseInt` as used here: every call site passes a nonempty run of
decimal digits, so the model reads the leading digit run. -/
def jsParseInt (s : String) : Int := (digitsToNat (s.toList.takeWhile Char.isDigit) : Int)

/-! ## A fragment of JavaScript regular expressions

The compiler manipulates regexes through their source strings (`buildRegex`
concatenates `u.regex.source`).  The model keeps the source strings and
interprets them with a parser and a backtracking matcher for the fragment of
pattern syntax the compiler emits (character literals, escapes, classes,
`.`/`\d`, bounded quantifiers `?`/`{n}`/`{n,m}`, alternation, capturing and
non-capturing groups, `^`/`$` anchors).  Sources outside the fragment
(e.g. unbounded `*`) make the interpretation return `none`. -/

/-- An item of a character class: a single character or a range. -/
inductive ClI where
  | one (c : Char)
  | rng (lo hi : Char)

/-- Abstract syntax of the regex fragment. -/
inductive RE where
  | eps
  | bol
  | eol
  | any
  | digit
  | chr (c : Char)
  | cls (items : List ClI)
  | cat (a b : RE)
  | alt (a b : RE)
  | opt (a : RE)
  | grp (i : Nat) (a : RE)
  | ngrp (a : RE)

/-- `n` mandatory copies of `a` (the required part of `a{lo,hi}`). -/
def repReq (a : RE) : Nat → RE
  | 0 => RE.eps
  | n + 1 => RE.cat a (repReq a n)

/-- Up to `n` further greedy copies of `a` (the optional part of
`a{lo,hi}`). -/
def repOpt (a : RE) : Nat → RE
  | 0 => RE.eps
  | n + 1 => RE.opt (RE.cat a (repOpt a n))

/-- Expansion of the bounded quantifier `a{lo,hi}` (greedy, like JS). -/
def expandRep (a : RE) (lo hi : Nat) : RE := RE.cat (repReq a lo) (repOpt a (hi - lo))

/-- Character comparison, optionally case-insensitive (the `i` flag; ASCII
canonicalisation). -/
def charEqCI (ci : Bool) (d c : Char) : Bool :=
  if ci then d.toLower == c.toLower else d == c

/-- Does a class item match a character (under the `i` flag)? -/
def clsItemMatch (ci : Bool) (it : ClI) (c : Char) : Bool :=
  match it with
  | ClI.one d => charEqCI ci d c
  | ClI.rng lo hi =>
      (decide (lo ≤ c) && decide (c ≤ hi)) ||
        (ci && ((decide (lo ≤ c.toLower) && decide (c.toLower ≤ hi)) ||
                (decide (lo ≤ c.toUpper) && decide (c.toUpper ≤ hi))))

/-- Capture vector: slot `i` holds group `i+1` of the match. -/
abbrev Caps := List (Option String)

/-- Record a capture for group index `i` (1-based). -/
def setCap (caps : Caps) (i : Nat) (v : Option String) : Caps := caps.set (i - 1) v

/-- Backtracking matcher in continuation style.  `startLen` is the length
of the whole subject (so `bol` can recognise the start position); `s` is the
remaining suffix.  Greedy and leftmost-alternative preference, as in JS. -/
def mtch {σ : Type} (ci : Bool) (startLen : Nat) :
    RE → List Char → Caps → (Caps → List Char → Option σ) → Option σ
  | RE.eps, s, caps, k => k caps s
  | RE.bol, s, caps, k => if s.length = startLen then k caps s else none
  | RE.eol, s, caps, k => if s = [] then k caps s else none
  | RE.any, [], _, _ => none
  | RE.any, c :: rest, caps, k => if c ≠ '\n' ∧ c ≠ '\r' then k caps rest else none
  | RE.digit, [], _, _ => none
  | RE.digit, c :: rest, caps, k => if c.isDigit then k caps rest else none
  | RE.chr _, [], _, _ => none
  | RE.chr d, c :: rest, caps, k => if charEqCI ci d c then k caps rest else none
  | RE.cls _, [], _, _ => none
  | RE.cls items, c :: rest, caps, k =>
      if items.any (fun it => clsItemMatch ci it c) then k caps rest else none
  | RE.cat a b, s, caps, k =>
      mtch ci startLen a s caps (fun caps1 s1 => mtch ci startLen b s1 caps1 k)
  | RE.alt a b, s, caps, k =>
      (mtch ci startLen a s caps k) <|> (mtch ci startLen b s caps k)
  | RE.opt a, s, caps, k =>
      (mtch ci startLen a s caps k) <|> k caps s
  | RE.grp i a, s, caps, k =>
      mtch ci startLen a s caps (fun caps1 s1 =>
        k (setCap caps1 i (some (String.mk (s.take (s.length - s1.length))))) s1)
  | RE.ngrp a, s, caps, k => mtch ci startLen a s caps k

/-- Fresh (all-undefined) capture vector for `gc` groups. -/
def initCaps (gc : Nat) : Caps := List.replicate gc none

/-- One match attempt anchored at the current suffix `s`; on success the
result is the array `[whole match, group 1, …]`. -/
def tryAt (ci : Bool) (re : RE) (gc : Nat) (startLen : Nat) (s : List Char) :
    Option (List (Option String)) :=
  match mtch ci startLen re s (initCaps gc) (fun caps rest => some (caps, rest)) with
  | some (caps, rest) =>
      some (some (String.mk (s.take (s.length - rest.length))) :: caps)
  | none => none

/-- Try to match at the current suffix, else slide right — JS
`String.prototype.match` (without the `g` flag) finds the leftmost match. -/
def tryMatch (ci : Bool) (re : RE) (gc : Nat) (whole : List Char) :
    List Char → Option (List (Option String))
  | [] => tryAt ci re gc whole.length []
  | c :: t =>
      match tryAt ci re gc whole.length (c :: t) with
      | some r => some r
      | none => tryMatch ci re gc whole t

/-- JS `input.match(regex)`: `none` for no match, otherwise the array
`[whole match, group 1, …, group gc]` with `none` for unmatched groups. -/
def jsMatch (ci : Bool) (re : RE) (gc : Nat) (input : String) :
    Option (List (Option String)) :=
  tryMatch ci re gc input.toList input.toList

/-- Read a nonempty run of decimal digits. -/
def readNum : List Char → Option (Nat × List Char)
  | c :: rest =>
      if c.isDigit then
        match readNum rest with
        | some (n, r) => some ((c.toNat - 48) * 10 ^ (rest.length - r.length) + n, r)
        | none => some (c.toNat - 48, rest)
      else none
  | [] => none

/-- Does the expression contain a capturing group?  (Used to keep the
quantifier expansion honest: duplicating a capturing group is outside the
modelled fragment; the compiler never emits it.) -/
def hasGrp : RE → Bool
  | RE.eps | RE.bol | RE.eol | RE.any | RE.digit | RE.chr _ | RE.cls _ => false
  | RE.cat a b | RE.alt a b => hasGrp a || hasGrp b
  | RE.opt a | RE.ngrp a => hasGrp a
  | RE.grp _ _ => true

/-- Parse the body of a character class, after the opening bracket. -/
def parseCls : List Char → Option (List ClI × List Char)
  | ']' :: rest => some ([], rest)
  | '\\' :: c :: rest =>
      match parseCls rest with
      | some (items, r) => some (ClI.one c :: items, r)
      | none => none
  | c :: '-' :: d :: rest =>
      if c = '\\' then none
      else if d = ']' then
        match parseCls ('-' :: d :: rest) with
        | some (items, r) => some (ClI.one c :: items, r)
        | none => none
      else
        match parseCls rest with
        | some (items, r) => some (ClI.rng c d :: items, r)
        | none => none
  | c :: rest =>
      if c = '\\' then none
      else
        match parseCls rest with
        | some (items, r) => some (ClI.one c :: items, r)
        | none => none
  | [] => none

/-- Punctuation that an escape makes literal in the fragment. -/
def escapableChar (c : Char) : Bool :=
  c = '.' || c = '\\' || c = '?' || c = '*' || c = '+' || c = '(' || c = ')' ||
  c = '[' || c = ']' || c = '\x7b' || c = '\x7d' || c = '|' || c = '^' || c = '$' || c = '/'

/-- Characters that cannot start an atom. -/
def atomStopper (c : Char) : Bool :=
  c = ')' || c = '|' || c = '?' || c = '*' || c = '+' || c = '\x7b'

/-- The recursive-descent pattern parser, one fueled function covering the
four productions (`prod` 0 = alternation, 1 = sequence, 2 = quantified
term, 3 = atom); `gi` is the next capturing-group number. -/
def parseP : Nat → Nat → List Char → Nat → Option (RE × List Char × Nat)
  | 0, _, _, _ => none
  | f + 1, 0, s, gi =>
      match parseP f 1 s gi with
      | none => none
      | some (a, s1, g1) =>
          match s1 with
          | '|' :: rest =>
              match parseP f 0 rest g1 with
              | some (b, s2, g2) => some (RE.alt a b, s2, g2)
              | none => none
          | _ => some (a, s1, g1)
  | f + 1, 1, s, gi =>
      match s with
      | [] => some (RE.eps, [], gi)
      | ')' :: _ => some (RE.eps, s, gi)
      | '|' :: _ => some (RE.eps, s, gi)
      | _ =>
          match parseP f 2 s gi with
          | none => none
          | some (a, s1, g1) =>
              match parseP f 1 s1 g1 with
              | some (b, s2, g2) => some (RE.cat a b, s2, g2)
              | none => none
  | f + 1, 2, s, gi =>
      match parseP f 3 s gi with
      | none => none
      | some (a, s1, g1) =>
          match s1 with
          | '?' :: '?' :: _ => none
          | '?' :: rest => some (RE.opt a, rest, g1)
          | '*' :: _ => none
          | '+' :: _ => none
          | '\x7b' :: rest =>
              match readNum rest with
              | none => none
              | some (lo, r1) =>
                  match r1 with
                  | '\x7d' :: '?' :: _ => none
                  | '\x7d' :: r2 =>
                      if hasGrp a ∧ 2 ≤ lo then none
                      else some (expandRep a lo lo, r2, g1)
                  | ',' :: r2 =>
                      match readNum r2 with
                      | none => none
                      | some (hi, r3) =>
                          match r3 with
                          | '\x7d' :: '?' :: _ => none
                          | '\x7d' :: r4 =>
                              if lo ≤ hi ∧ ¬(hasGrp a ∧ 2 ≤ hi) then
                                some (expandRep a lo hi, r4, g1)
                              else none
                          | _ => none
                  | _ => none
          | _ => some (a, s1, g1)
  | f + 1, 3, s, gi =>
      match s with
      | '(' :: '?' :: ':' :: rest =>
          match parseP f 0 rest gi with
          | some (a, ')' :: r, g1) => some (RE.ngrp a, r, g1)
          | _ => none
      | '(' :: '?' :: _ => none
      | '(' :: rest =>
          match parseP f 0 rest (gi + 1) with
          | some (a, ')' :: r, g1) => some (RE.grp gi a, r, g1)
          | _ => none
      | '[' :: rest =>
          match parseCls rest with
          | some (items, r) => some (RE.cls items, r, gi)
          | none => none
      | '\\' :: 'd' :: rest => some (RE.digit, rest, gi)
      | '\\' :: c :: rest => if escapableChar c then some (RE.chr c, rest, gi) else none
      | '.' :: rest => some (RE.any, rest, gi)
      | '^' :: rest => some (RE.bol, rest, gi)
      | '$' :: rest => some (RE.eol, rest, gi)
      | c :: rest => if atomStopper c then none else some (RE.chr c, rest, gi)
      | [] => none
  | _ + 1, _ + 4, _, _ => none

/-- Parse a whole pattern source; returns the expression and its number of
capturing groups.  `none` for sources outside the modelled fragment
(a JS `RegExp` would also reject genuinely invalid sources, with an
exception; neither arises for the patterns the compiler emits). -/
def parseRE (src : String) : Option (RE × Nat) :=
  match parseP (8 * src.length + 16) 0 src.toList 1 with
  | some (a, [], g) => some (a, g - 1)
  | _ => none

/-! ## Match-unit descriptors and the unit compiler -/

/-- The first captured group of a descriptor's slice; the primary group of
every participating descriptor is a matched string. -/
def cap0 (gs : List (Option String)) : String := (gs.headD none).getD ""

/-- Captured group at position `i` of a slice, `none` when the group did
not participate in the match (JS `undefined`). -/
def capAt (gs : List (Option String)) (i : Nat) : Option String :=
  (gs.get? i).bind id

/-- A match-unit descriptor.  `regexSrc` is the source of the JS regex the
code stores in the `regex` field, `groups` the optional `groups` property
(extra capture groups beyond the primary), `token` the owning token
(attached by `unitForToken`). -/
structure TUnit where
  regexSrc : String := ""
  deser : List (Option String) → Val := fun _ => Val.vstr ""
  groups : Option Nat := none
  literal : Bool := false
  token : Option Token := none

/-- `missing Intl.DateTimeFormat.formatToParts support`. -/
def MISSING_FTP : String := "missing Intl.DateTimeFormat.formatToParts support"

/-- `intUnit(regex, post)`: integer descriptor; deserializer parses the
captured digits and applies the post-processing step. -/
def intUnit (regexSrc : String) (post : Int → Int := fun i => i) : TUnit :=
  { regexSrc := regexSrc, deser := fun gs => Val.vnum (post (jsParseInt (cap0 gs))) }

/-- `fixListRegex(s)`: JS `s.replace(/\./, '\\.?')` — the regex has no `g`
flag, so only the first period is rewritten to an optional escaped dot. -/
def replaceFirstDot : List Char → List Char
  | [] => []
  | '.' :: rest => '\\' :: '.' :: '?' :: rest
  | c :: rest => c :: replaceFirstDot rest

/-- `fixListRegex`: make the (first) dot optional and literal. -/
def fixListRegex (s : String) : String := String.mk (replaceFirstDot s.toList)

/-- JS `s.replace(/\./, '')` — removes only the first period. -/
def removeFirstDot : List Char → List Char
  | [] => []
  | '.' :: rest => rest
  | c :: rest => c :: removeFirstDot rest

/-- `stripInsensitivities(s)`: drop the (first) period and lower-case. -/
def stripInsensitivities (s : String) : String :=
  String.mk ((removeFirstDot s.toList).map Char.toLower)

/-- JS `Array.prototype.findIndex`: index of the first element satisfying
the predicate, `-1` if none. -/
def jsFindIndexAux {α : Type} (p : α → Bool) : List α → Nat → Int
  | [], _ => -1
  | x :: rest, n => if p x then (n : Int) else jsFindIndexAux p rest (n + 1)

/-- JS `Array.prototype.findIndex`. -/
def jsFindIndex {α : Type} (p : α → Bool) (l : List α) : Int := jsFindIndexAux p l 0

/-- `oneOf(strings, startIndex)`: alternation over localized candidates
(`null` candidates give `null`); the deserializer maps the matched text to
the position of the first normalized-equal candidate plus `startIndex`. -/
def oneOf (strings : Option (List String)) (startIndex : Int) : Option TUnit :=
  match strings with
  | none => none
  | some l =>
      some
        { regexSrc := String.intercalate "|" (l.map fixListRegex)
          deser := fun gs =>
            Val.vnum
              (jsFindIndex
                (fun i => stripInsensitivities (cap0 gs) == stripInsensitivities i) l +
                startIndex) }

/-- Modelled from the spec: the sign/magnitude offset decoder
(`signedOffset` of `util.js`, not part of this snapshot) — "decode(hourText,
minuteText|absent) → signed integer minutes"; the hour text is
sign-prefixed, e.g. "+05:30" → +330 and "-0800" → −480 minutes. -/
def signedOffset (offHourStr : String) (offMinuteStr : Option String) : Int :=
  let neg := offHourStr.toList.headD '+' == '-'
  let h := digitsToNat (offHourStr.toList.filter Char.isDigit)
  let m :=
    match offMinuteStr with
    | some s => digitsToNat (s.toList.filter Char.isDigit)
    | none => 0
  let total : Int := 60 * (h : Int) + (m : Int)
  if neg then -total else total

/-- `offset(regex, groups)`: offset descriptor; `([, h, m]) =>
signedOffset(h, m)` skips the primary group and decodes the hour and
optional minute groups. -/
def offset (regexSrc : String) (groups : Nat) : TUnit :=
  { regexSrc := regexSrc
    groups := some groups
    deser := fun gs => Val.vnum (signedOffset ((capAt gs 1).getD "") (capAt gs 2)) }

/-- `simple(regex)`: deserializer returns the captured text unchanged. -/
def simple (regexSrc : String) : TUnit :=
  { regexSrc := regexSrc, deser := fun gs => Val.vstr (cap0 gs) }

/-- `literal(t)`: the token's text is used as the regex source verbatim
(`RegExp(t.val)` — note: no escaping), deserializer returns the matched
text, `literal : true`. -/
def literal (t : Token) : TUnit :=
  { regexSrc := t.val, deser := fun gs => Val.vstr (cap0 gs), literal := true }

/-- Modelled from the spec: the locale service — "for each semantic
category (era, month, weekday, meridiem) and style (short/long,
standalone/format-context), returns either an ordered list of candidate
strings or null if unsupported".  Field arguments mirror the call sites
(`eras(length, useIntl)`, `months(length, standalone, useIntl)`,
`weekdays(length, standalone, useIntl)`, `meridiems()`). -/
structure Locale where
  eras : String → Bool → Option (List String)
  months : String → Bool → Bool → Option (List String)
  weekdays : String → Bool → Bool → Option (List String)
  meridiems : Option (List String)

/-- Modelled from the spec: the two-digit-year expansion
(`untruncateYear` of `util.js`) is "treated as a black box" whose pivot
rule must not be guessed, so the embedding abstracts it (and no other
external function) as a parameter. -/
structure Externals where
  untruncateYear : Int → Int

/-- `unitate(token, loc)`: dispatch a token to its descriptor; `none` when
a required localized list is unavailable (`oneOf(null, …)`). -/
def unitate (ext : Externals) (token : Token) (loc : Locale) : Option TUnit :=
  if token.literal then some (literal token)
  else
    match token.val with
    | "G" => oneOf (loc.eras "short" false) 0
    | "GG" => oneOf (loc.eras "long" false) 0
    | "y" => some (intUnit "\\d\x7b1,6\x7d")
    | "yy" => some (intUnit "\\d\x7b2,4\x7d" ext.untruncateYear)
    | "yyyy" => some (intUnit "\\d\x7b4\x7d")
    | "yyyyy" => some (intUnit "\\d\x7b4,6\x7d")
    | "yyyyyy" => some (intUnit "\\d\x7b6\x7d")
    | "M" => some (intUnit "\\d\x7b1,2\x7d")
    | "MM" => some (intUnit "\\d\x7b2\x7d")
    | "MMM" => oneOf (loc.months "short" false false) 1
    | "MMMM" => oneOf (loc.months "long" false false) 1
    | "L" => some (intUnit "\\d\x7b1,2\x7d")
    | "LL" => some (intUnit "\\d\x7b2\x7d")
    | "LLL" => oneOf (loc.months "short" true false) 1
    | "LLLL" => oneOf (loc.months "long" true false) 1
    | "d" => some (intUnit "\\d\x7b1,2\x7d")
    | "dd" => some (intUnit "\\d\x7b2\x7d")
    | "o" => some (intUnit "\\d\x7b1,3\x7d")
    | "ooo" => some (intUnit "\\d\x7b3\x7d")
    | "HH" => some (intUnit "\\d\x7b2\x7d")
    | "H" => some (intUnit "\\d\x7b1,2\x7d")
    | "hh" => some (intUnit "\\d\x7b2\x7d")
    | "h" => some (intUnit "\\d\x7b1,2\x7d")
    | "mm" => some (intUnit "\\d\x7b2\x7d")
    | "m" => some (intUnit "\\d\x7b1,2\x7d")
    | "s" => some (intUnit "\\d\x7b1,2\x7d")
    | "ss" => some (intUnit "\\d\x7b2\x7d")
    | "S" => some (intUnit "\\d\x7b1,3\x7d")
    | "SSS" => some (intUnit "\\d\x7b3\x7d")
    | "u" => some (simple "\\d\x7b1,9\x7d")
    | "a" => oneOf loc.meridiems 0
    | "kkkk" => some (intUnit "\\d\x7b4\x7d")
    | "kk" => some (intUnit "\\d\x7b2,4\x7d" ext.untruncateYear)
    | "W" => some (intUnit "\\d\x7b1,2\x7d")
    | "WW" => some (intUnit "\\d\x7b2\x7d")
    | "E" => some (intUnit "\\d")
    | "c" => some (intUnit "\\d")
    | "EEE" => oneOf (loc.weekdays "short" false false) 1
    | "EEEE" => oneOf (loc.weekdays "long" false false) 1
    | "ccc" => oneOf (loc.weekdays "short" true false) 1
    | "cccc" => oneOf (loc.weekdays "long" true false) 1
    | "Z" => some (offset "([+-]\\d\x7b1,2\x7d)(?::(\\d\x7b2\x7d))?" 2)
    | "ZZ" => some (offset "([+-]\\d\x7b1,2\x7d)(?::(\\d\x7b2\x7d))?" 2)
    | "ZZZ" => some (offset "([+-]\\d\x7b1,2\x7d)(\\d\x7b2\x7d)?" 2)
    | "z" => some (simple "[A-Za-z_]\x7b1,256\x7d/[A-Za-z_]\x7b1,256\x7d")
    | _ => some (literal token)

/-- `unitForToken(token, loc)`: attach the owning token; a null unit
becomes `{invalidReason: MISSING_FTP}` (descriptors built by `unitate`
never carry an invalid-reason, so the embedding separates the two shapes
in an `Except`). -/
def unitForToken (ext : Externals) (t : Token) (loc : Locale) : Except String TUnit :=
  match unitate ext t loc with
  | some u => Except.ok { u with token := some t }
  | none => Except.error MISSING_FTP

/-! ## Pattern assembly, matching and field resolution -/

/-- The compile loop of `explainFromTokens`: units in order, stopping at
the first token whose unit carries an invalid-reason. -/
def compileUnits (ext : Externals) (loc : Locale) : List Token → Except String (List TUnit)
  | [] => Except.ok []
  | t :: rest =>
      match unitForToken ext t loc with
      | Except.error r => Except.error r
      | Except.ok u => (compileUnits ext loc rest).map (fun us => u :: us)

/-- `buildRegex(units)`: wrap each unit's source in a capturing group,
concatenate in order, and anchor the whole pattern. -/
def buildRegex (units : List TUnit) : String × List TUnit :=
  ("^" ++ units.foldl (fun f u => f ++ "(" ++ u.regexSrc ++ ")") "" ++ "$", units)

/-- `h.groups ? h.groups + 1 : 1`: groups consumed by a descriptor
(`groups: 0` would also be falsy in JS). -/
def groupsOf (u : TUnit) : Nat :=
  match u.groups with
  | some g => if g == 0 then 1 else g + 1
  | none => 1

/-- JS `Array.prototype.slice(a, b)`. -/
def jsSlice {α : Type} (l : List α) (a b : Nat) : List α := (l.drop a).take (b - a)

/-- `h.token.val[0]`: the map key of a descriptor — the first character of
its owning token's code (the tokenizer never produces empty token text). -/
def tokenKey (u : TUnit) : Char :=
  (match u.token with
   | some t => t.val.toList
   | none => []).headD ' '

/-- The per-descriptor walk of `match`: consume `1 + groups` captured
groups per descriptor; non-literal descriptors with a token write the
deserialized slice under their key (overwriting — last wins). -/
def matchLoop (caps : List (Option String)) : List TUnit → Nat → FieldMap → FieldMap
  | [], _, all => all
  | h :: rest, matchIndex, all =>
      matchLoop caps rest (matchIndex + groupsOf h)
        (if !h.literal && h.token.isSome then
          jsSet all (tokenKey h) (h.deser (jsSlice caps matchIndex (matchIndex + groupsOf h)))
        else all)

/-- `match(input, regex, handlers)`: run the compiled pattern (the
orchestrator compiles it with the `i` flag); on no match return
`[null, {}]`, on match distribute the captured groups. -/
def matchUnits (input : String) (re : RE) (gc : Nat) (handlers : List TUnit) :
    Option (List (Option String)) × FieldMap :=
  match jsMatch true re gc input with
  | some ms => (some ms, matchLoop ms handlers 1 [])
  | none => (none, [])

/-- The raw-key to calendar-field renaming table (`toField`). -/
def toField (k : Char) : Option String :=
  if k = 'S' then some "millisecond"
  else if k = 's' then some "second"
  else if k = 'm' then some "minute"
  else if k = 'h' then some "hour"
  else if k = 'H' then some "hour"
  else if k = 'd' then some "day"
  else if k = 'o' then some "ordinal"
  else if k = 'L' then some "month"
  else if k = 'M' then some "month"
  else if k = 'y' then some "year"
  else if k = 'E' then some "weekday"
  else if k = 'c' then some "weekday"
  else if k = 'W' then some "weekNumber"
  else if k = 'k' then some "weekYear"
  else none

/-- Zone selection from the raw field map: a `Z` key gives a fixed-offset
zone, else a `z` key gives a named zone, else null. -/
def zoneStep (m : FieldMap) : Option Zone :=
  match jsGet m 'Z' with
  | some v => some (Zone.fixedOffset v)
  | none =>
      match jsGet m 'z' with
      | some v => some (Zone.iana v)
      | none => none

/-- The 12-hour adjustment: `matches.h < 12 && matches.a === 1` adds 12,
`matches.h === 12 && matches.a === 0` zeroes the hour.  The `h` and `a`
keys are produced by integer and enumeration units and are numeric. -/
def hourStep (m : FieldMap) : FieldMap :=
  match jsGet m 'h' with
  | some (Val.vnum h) =>
      if h < 12 ∧ jsGet m 'a' = some (Val.vnum 1) then jsSet m 'h' (Val.vnum (h + 12))
      else if h = 12 ∧ jsGet m 'a' = some (Val.vnum 0) then jsSet m 'h' (Val.vnum 0)
      else m
  | _ => m

/-- JS truthiness of the captured year (`matches.y`): a number is truthy
iff nonzero, a string iff nonempty. -/
def yTruthy (m : FieldMap) : Bool :=
  match jsGet m 'y' with
  | some (Val.vnum n) => n ≠ 0
  | some (Val.vstr s) => s ≠ ""
  | none => false

/-- The era adjustment: `matches.G === 0 && matches.y` negates the year
(the `y` key is produced by integer units and is numeric). -/
def eraStep (m : FieldMap) : FieldMap :=
  if jsGet m 'G' = some (Val.vnum 0) ∧ yTruthy m then
    match jsGet m 'y' with
    | some (Val.vnum n) => jsSet m 'y' (Val.vnum (-n))
    | _ => m
  else m

/-- Modelled from the spec: the sub-second millisecond parser
(`parseMillis` of `util.js`) — "toMillis(digitString) → integer 0..999";
"5" → 500, "05" → 50, "500" → 500, "1234" → 123 (the digit string is a
fraction of a second, truncated to millisecond precision). -/
def parseMillis (s : String) : Int :=
  let ds := s.toList.take 3
  (digitsToNat (ds ++ List.replicate (3 - ds.length) '0') : Int)

/-- The sub-second step: a `u` capture overrides the `S` key with its
millisecond value (the `u` key is produced by `simple` and is a string). -/
def uStep (m : FieldMap) : FieldMap :=
  match jsGet m 'u' with
  | some (Val.vstr s) => jsSet m 'S' (Val.vnum (parseMillis s))
  | some (Val.vnum n) => jsSet m 'S' (Val.vnum (parseMillis (toString n)))
  | none => m

/-- The final renaming reduce over `Object.keys(matches)` (insertion
order): raw keys with a calendar-field name are written, others dropped. -/
def renameStep (m : FieldMap) : RMap :=
  m.foldl
    (fun r kv =>
      match toField kv.1 with
      | some f => jsSet r f kv.2
      | none => r)
    []

/-- `dateTimeFromMatches(matches)`: zone selection, then the 12-hour, era
and sub-second adjustments, then renaming. -/
def dateTimeFromMatches (m : FieldMap) : RMap × Option Zone :=
  (renameStep (uStep (eraStep (hourStep m))), zoneStep m)

/-- The result object of `explainFromTokens`: either the early
invalid-reason result `{input, tokens, invalidReason}` or the full
diagnostic object (`matchesMap` is the `matches` property of the JS object;
`matches` is reserved in Lean). -/
inductive ExplainResult where
  | invalid (input : String) (tokens : List Token) (invalidReason : String)
  | ok (input : String) (tokens : List Token) (regexString : String)
      (rawMatches : Option (List (Option String))) (matchesMap : FieldMap)
      (result : Option RMap) (zone : Option Zone)
deriving DecidableEq

/-- JS truthiness of the raw field map: it is an object, and every object
— the empty one included — is truthy. -/
def jsObjectTruthy (_m : FieldMap) : Bool := true

/-- `explainFromTokens(locale, input, format)`.  The format tokenizer
(`Formatter.parseFormat`) is an external collaborator (spec §6), so the
embedding takes its output token list.  The result is `none` only when the
assembled pattern falls outside the modelled regex fragment. -/
def explainFromTokens (ext : Externals) (loc : Locale) (input : String)
    (tokens : List Token) : Option ExplainResult :=
  match compileUnits ext loc tokens with
  | Except.error reason => some (ExplainResult.invalid input tokens reason)
  | Except.ok units =>
      let b := buildRegex units
      match parseRE b.1 with
      | none => none
      | some (re, gc) =>
          let mr := matchUnits input re gc b.2
          let rz :=
            if jsObjectTruthy mr.2 then
              ((dateTimeFromMatches mr.2).1, (dateTimeFromMatches mr.2).2)
            else ([], none)
          some (ExplainResult.ok input tokens b.1 mr.1 mr.2 (some rz.1) rz.2)

/-- `parseFromTokens(locale, input, format)`: the simplified variant
returning `[result, zone, invalidReason]`. -/
def parseFromTokens (ext : Externals) (loc : Locale) (input : String)
    (tokens : List Token) : Option (Option RMap × Option Zone × Option String) :=
  match explainFromTokens ext loc input tokens with
  | none => none
  | some (ExplainResult.invalid _ _ r) => some (none, none, some r)
  | some (ExplainResult.ok _ _ _ _ _ result zone) => some (result, zone, none)

/-! ## Concrete instances and auxiliary notions used by the theorems -/

/-- A concrete external bundle (the two-digit-year expansion is irrelevant
to the formats exercised below). -/
def ext0 : Externals := { untruncateYear := fun n => n }

/-- A locale without `Intl.DateTimeFormat.formatToParts` support: every
localized candidate list is null. -/
def loc0 : Locale :=
  { eras := fun _ _ => none
    months := fun _ _ _ => none
    weekdays := fun _ _ _ => none
    meridiems := none }

/-- The normalization in the words of the spec, for comparison with
`stripInsensitivities`: "strip periods and lower-case" — all periods
removed. -/
def specNormalize (s : String) : String :=
  String.mk ((s.toList.filter (fun c => c ≠ '.')).map Char.toLower)

/-- Whether the anchored single-unit pattern built from a descriptor
source accepts a string (the source wrapped exactly as `buildRegex` wraps
one unit, executed as the orchestrator executes it). -/
def acceptsSrc (src : String) (s : String) : Bool :=
  match parseRE ("^(" ++ src ++ ")$") with
  | some (re, gc) => (jsMatch true re gc s).isSome
  | none => false

/-- The values a handler list writes for a given key during the match walk
(in order): one value per non-literal descriptor with that leading
character, deserialized from its group slice at the running index. -/
def contribs (caps : List (Option String)) : List TUnit → Nat → Char → List Val
  | [], _, _ => []
  | h :: rest, idx, key =>
      (if ¬h.literal ∧ h.token.isSome ∧ tokenKey h = key then
         [h.deser (jsSlice caps idx (idx + groupsOf h))]
       else []) ++
        contribs caps rest (idx + groupsOf h) key

/-- JS-style non-lazy fallback on options (`x ?? y` for present/absent). -/
def orO {α : Type} : Option α → Option α → Option α
  | some v, _ => some v
  | none, o => o

/-- Last element of a list, if any. -/
def lastVal {α : Type} : List α → Option α
  | [] => none
  | [v] => some v
  | _ :: x :: rest => lastVal (x :: rest)

/-- Declarative acceptance for the regex fragment: `Accepts ci startLen re
s t` holds when `re` can consume a prefix of `s` leaving exactly `t`
(`startLen` identifies the start position for the `^` assertion). -/
inductive Accepts (ci : Bool) (startLen : Nat) : RE → List Char → List Char → Prop where
  | eps {s} : Accepts ci startLen RE.eps s s
  | bol {s} (h : s.length = startLen) : Accepts ci startLen RE.bol s s
  | eol : Accepts ci startLen RE.eol [] []
  | any {c s} (h1 : c ≠ '\n') (h2 : c ≠ '\r') : Accepts ci startLen RE.any (c :: s) s
  | digit {c s} (h : c.isDigit = true) : Accepts ci startLen RE.digit (c :: s) s
  | chr {d c s} (h : charEqCI ci d c = true) : Accepts ci startLen (RE.chr d) (c :: s) s
  | cls {items c s} (h : items.any (fun it => clsItemMatch ci it c) = true) :
      Accepts ci startLen (RE.cls items) (c :: s) s
  | cat {a b s t u} (h1 : Accepts ci startLen a s t) (h2 : Accepts ci startLen b t u) :
      Accepts ci startLen (RE.cat a b) s u
  | altl {a b s t} (h : Accepts ci startLen a s t) : Accepts ci startLen (RE.alt a b) s t
  | altr {a b s t} (h : Accepts ci startLen b s t) : Accepts ci startLen (RE.alt a b) s t
  | optSome {a s t} (h : Accepts ci startLen a s t) : Accepts ci startLen (RE.opt a) s t
  | optNone {a s} : Accepts ci startLen (RE.opt a) s s
  | grp {i a s t} (h : Accepts ci startLen a s t) : Accepts ci startLen (RE.grp i a) s t
  | ngrp {a s t} (h : Accepts ci startLen a s t) : Accepts ci startLen (RE.ngrp a) s t

/-! ## Helper lemmas -/

theorem isSome_orElse {α : Type} (a b : Option α) :
    (a <|> b).isSome = (a.isSome || b.isSome) := by
  cases a <;> rfl

theorem orO_assoc {α : Type} (a b c : Option α) : orO (orO a b) c = orO a (orO b c) := by
  cases a <;> cases b <;> rfl

theorem orO_none_right {α : Type} (a : Option α) : orO a none = a := by
  cases a <;> rfl

theorem lastVal_cons {α : Type} (x : α) (l : List α) :
    lastVal (x :: l) = orO (lastVal l) (some x) := by
  induction l generalizing x with
  | nil => rfl
  | cons y rest ih =>
      show lastVal (y :: rest) = orO (lastVal (y :: rest)) (some x)
      rw [ih y]
      cases lastVal rest <;> rfl

theorem jsGet_jsSet {κ α : Type} [DecidableEq κ] (m : List (κ × α)) (k k' : κ) (v : α) :
    jsGet (jsSet m k v) k' = if k' = k then some v else jsGet m k' := by
  induction m with
  | nil =>
      simp only [jsSet, jsGet]
      by_cases h : k' = k
      · rw [if_pos h.symm, if_pos h]
      · rw [if_neg (fun hh => h hh.symm), if_neg h]
  | cons kv rest ih =>
      obtain ⟨k1, v1⟩ := kv
      simp only [jsSet]
      by_cases h1 : k1 = k
      · rw [if_pos h1]
        subst h1
        simp only [jsGet]
        by_cases h2 : k' = k1
        · rw [if_pos h2.symm, if_pos h2]
        · rw [if_neg (fun hh => h2 hh.symm), if_neg h2, if_neg (fun hh => h2 hh.symm)]
      · rw [if_neg h1]
        simp only [jsGet, ih]
        by_cases h2 : k1 = k'
        · subst h2
          rw [if_pos rfl, if_neg h1, if_pos rfl]
        · rw [if_neg h2, if_neg h2]

theorem mem_keys_jsSet {κ α : Type} [DecidableEq κ] (m : List (κ × α)) (k k' : κ) (v : α) :
    k' ∈ (jsSet m k v).map Prod.fst ↔ k' ∈ m.map Prod.fst ∨ k' = k := by
  induction m with
  | nil => simp [jsSet]
  | cons kv rest ih =>
      obtain ⟨k1, v1⟩ := kv
      simp only [jsSet]
      by_cases h1 : k1 = k
      · rw [if_pos h1]
        subst h1
        simp only [List.map_cons, List.mem_cons]
        tauto
      · rw [if_neg h1]
        simp only [List.map_cons, List.mem_cons, ih]
        tauto

theorem nodup_keys_jsSet {κ α : Type} [DecidableEq κ] (m : List (κ × α)) (k : κ) (v : α)
    (h : (m.map Prod.fst).Nodup) : ((jsSet m k v).map Prod.fst).Nodup := by
  induction m with
  | nil => simp [jsSet]
  | cons kv rest ih =>
      obtain ⟨k1, v1⟩ := kv
      simp only [List.map_cons, List.nodup_cons] at h
      simp only [jsSet]
      by_cases h1 : k1 = k
      · rw [if_pos h1]
        subst h1
        simp only [List.map_cons, List.nodup_cons]
        exact h
      · rw [if_neg h1]
        simp only [List.map_cons, List.nodup_cons]
        constructor
        · rw [mem_keys_jsSet]
          rintro (hh | hh)
          · exact h.1 hh
          · exact h1 hh
        · exact ih h.2

theorem jsGet_eq_none_of_not_mem {κ α : Type} [DecidableEq κ] (m : List (κ × α)) (k : κ)
    (h : k ∉ m.map Prod.fst) : jsGet m k = none := by
  induction m with
  | nil => rfl
  | cons kv rest ih =>
      obtain ⟨k1, v1⟩ := kv
      simp only [List.map_cons, List.mem_cons, not_or] at h
      simp only [jsGet]
      rw [if_neg (fun hh => h.1 hh.symm), ih h.2]

theorem mem_keys_of_jsGet_some {κ α : Type} [DecidableEq κ] (m : List (κ × α)) (k : κ) (v : α)
    (h : jsGet m k = some v) : k ∈ m.map Prod.fst := by
  by_contra hc
  rw [jsGet_eq_none_of_not_mem m k hc] at h
  exact Option.noConfusion h

/-! ## Matcher correctness: executable matcher vs. declarative acceptance -/

theorem mtch_isSome {σ : Type} (ci : Bool) (startLen : Nat) (re : RE) :
    ∀ (s : List Char) (caps : Caps) (k : Caps → List Char → Option σ)
      (Q : List Char → Prop),
      (∀ caps' s', (k caps' s').isSome ↔ Q s') →
      ((mtch ci startLen re s caps k).isSome ↔
        ∃ t, Accepts ci startLen re s t ∧ Q t) := by
  induction re with
  | eps =>
      intro s caps k Q hk
      simp only [mtch]
      rw [hk]
      constructor
      · intro h; exact ⟨s, Accepts.eps, h⟩
      · rintro ⟨t, ht, hQ⟩; cases ht; exact hQ
  | bol =>
      intro s caps k Q hk
      simp only [mtch]
      by_cases h : s.length = startLen
      · rw [if_pos h, hk]
        constructor
        · intro hq; exact ⟨s, Accepts.bol h, hq⟩
        · rintro ⟨t, ht, hQ⟩; cases ht; exact hQ
      · rw [if_neg h]
        simp only [Option.isSome_none, Bool.false_eq_true, false_iff]
        rintro ⟨t, ht, hQ⟩
        cases ht with
        | bol hh => exact h hh
  | eol =>
      intro s caps k Q hk
      simp only [mtch]
      by_cases h : s = ([] : List Char)
      · subst h
        rw [if_pos rfl, hk]
        constructor
        · intro hq; exact ⟨[], Accepts.eol, hq⟩
        · rintro ⟨t, ht, hQ⟩; cases ht; exact hQ
      · rw [if_neg h]
        simp only [Option.isSome_none, Bool.false_eq_true, false_iff]
        rintro ⟨t, ht, hQ⟩
        cases ht
        exact h rfl
  | any =>
      intro s caps k Q hk
      cases s with
      | nil =>
          simp only [mtch, Option.isSome_none, Bool.false_eq_true, false_iff]
          rintro ⟨t, ht, hQ⟩; cases ht
      | cons c rest =>
          simp only [mtch]
          by_cases h : c ≠ '\n' ∧ c ≠ '\r'
          · rw [if_pos h, hk]
            constructor
            · intro hq; exact ⟨rest, Accepts.any h.1 h.2, hq⟩
            · rintro ⟨t, ht, hQ⟩; cases ht; exact hQ
          · rw [if_neg h]
            simp only [Option.isSome_none, Bool.false_eq_true, false_iff]
            rintro ⟨t, ht, hQ⟩
            cases ht with
            | any h1 h2 => exact h ⟨h1, h2⟩
  | digit =>
      intro s caps k Q hk
      cases s with
      | nil =>
          simp only [mtch, Option.isSome_none, Bool.false_eq_true, false_iff]
          rintro ⟨t, ht, hQ⟩; cases ht
      | cons c rest =>
          simp only [mtch]
          by_cases h : c.isDigit = true
          · rw [if_pos h, hk]
            constructor
            · intro hq; exact ⟨rest, Accepts.digit h, hq⟩
            · rintro ⟨t, ht, hQ⟩; cases ht; exact hQ
          · rw [if_neg h]
            simp only [Option.isSome_none, Bool.false_eq_true, false_iff]
            rintro ⟨t, ht, hQ⟩
            cases ht with
            | digit hd => exact h hd
  | chr d =>
      intro s caps k Q hk
      cases s with
      | nil =>
          simp only [mtch, Option.isSome_none, Bool.false_eq_true, false_iff]
          rintro ⟨t, ht, hQ⟩; cases ht
      | cons c rest =>
          simp only [mtch]
          by_cases h : charEqCI ci d c = true
          · rw [if_pos h, hk]
            constructor
            · intro hq; exact ⟨rest, Accepts.chr h, hq⟩
            · rintro ⟨t, ht, hQ⟩; cases ht; exact hQ
          · rw [if_neg h]
            simp only [Option.isSome_none, Bool.false_eq_true, false_iff]
            rintro ⟨t, ht, hQ⟩
            cases ht with
            | chr hd => exact h hd
  | cls items =>
      intro s caps k Q hk
      cases s with
      | nil =>
          simp only [mtch, Option.isSome_none, Bool.false_eq_true, false_iff]
          rintro ⟨t, ht, hQ⟩; cases ht
      | cons c rest =>
          simp only [mtch]
          by_cases h : items.any (fun it => clsItemMatch ci it c) = true
          · rw [if_pos h, hk]
            constructor
            · intro hq; exact ⟨rest, Accepts.cls h, hq⟩
            · rintro ⟨t, ht, hQ⟩; cases ht; exact hQ
          · rw [if_neg h]
            simp only [Option.isSome_none, Bool.false_eq_true, false_iff]
            rintro ⟨t, ht, hQ⟩
            cases ht with
            | cls hd => exact h hd
  | cat a b iha ihb =>
      intro s caps k Q hk
      simp only [mtch]
      rw [iha s caps _ (fun s1 => ∃ u, Accepts ci startLen b s1 u ∧ Q u)
        (fun caps1 s1 => ihb s1 caps1 k Q hk)]
      constructor
      · rintro ⟨t, hat, u, hbt, hQ⟩; exact ⟨u, Accepts.cat hat hbt, hQ⟩
      · rintro ⟨u, hcat, hQ⟩
        cases hcat with
        | cat h1 h2 => exact ⟨_, h1, _, h2, hQ⟩
  | alt a b iha ihb =>
      intro s caps k Q hk
      simp only [mtch]
      rw [isSome_orElse, Bool.or_eq_true] at *
      rw [iha s caps k Q hk, ihb s caps k Q hk]
      constructor
      · rintro (⟨t, ht, hQ⟩ | ⟨t, ht, hQ⟩)
        · exact ⟨t, Accepts.altl ht, hQ⟩
        · exact ⟨t, Accepts.altr ht, hQ⟩
      · rintro ⟨t, ht, hQ⟩
        cases ht with
        | altl h => exact Or.inl ⟨t, h, hQ⟩
        | altr h => exact Or.inr ⟨t, h, hQ⟩
  | opt a iha =>
      intro s caps k Q hk
      simp only [mtch]
      rw [isSome_orElse, Bool.or_eq_true, iha s caps k Q hk, hk]
      constructor
      · rintro (⟨t, ht, hQ⟩ | hq)
        · exact ⟨t, Accepts.optSome ht, hQ⟩
        · exact ⟨s, Accepts.optNone, hq⟩
      · rintro ⟨t, ht, hQ⟩
        cases ht with
        | optSome h => exact Or.inl ⟨t, h, hQ⟩
        | optNone => exact Or.inr hQ
  | grp i a iha =>
      intro s caps k Q hk
      simp only [mtch]
      rw [iha s caps _ Q (fun caps1 s1 => hk _ s1)]
      constructor
      · rintro ⟨t, ht, hQ⟩; exact ⟨t, Accepts.grp ht, hQ⟩
      · rintro ⟨t, ht, hQ⟩
        cases ht with
        | grp h => exact ⟨t, h, hQ⟩
  | ngrp a iha =>
      intro s caps k Q hk
      simp only [mtch]
      rw [iha s caps k Q hk]
      constructor
      · rintro ⟨t, ht, hQ⟩; exact ⟨t, Accepts.ngrp ht, hQ⟩
      · rintro ⟨t, ht, hQ⟩
        cases ht with
        | ngrp h => exact ⟨t, h, hQ⟩

theorem tryAt_isSome (ci : Bool) (re : RE) (gc L : Nat) (s : List Char) :
    (tryAt ci re gc L s).isSome =
      (mtch ci L re s (initCaps gc) (fun caps rest => some (caps, rest))).isSome := by
  unfold tryAt
  split
  · next caps rest heq => rw [heq]; rfl
  · next heq => rw [heq]; rfl

theorem mtch_bol_none {σ : Type} (ci : Bool) (L : Nat) (X : RE) (s : List Char) (caps : Caps)
    (k : Caps → List Char → Option σ) (h : s.length ≠ L) :
    mtch ci L (RE.cat RE.bol X) s caps k = none := by
  simp only [mtch]
  rw [if_neg h]

theorem tryMatch_bol_none (ci : Bool) (X : RE) (gc : Nat) (whole : List Char) :
    ∀ s : List Char, s.length < whole.length →
      tryMatch ci (RE.cat RE.bol X) gc whole s = none := by
  intro s
  induction s with
  | nil =>
      intro h
      simp only [tryMatch]
      unfold tryAt
      rw [mtch_bol_none ci whole.length X [] _ _ (Nat.ne_of_lt h)]
  | cons c t ih =>
      intro h
      have ha : tryAt ci (RE.cat RE.bol X) gc whole.length (c :: t) = none := by
        unfold tryAt
        rw [mtch_bol_none ci whole.length X (c :: t) _ _ (Nat.ne_of_lt h)]
      simp only [tryMatch, ha]
      exact ih (by simp only [List.length_cons] at h; omega)

theorem jsMatch_bol_eq_tryAt (ci : Bool) (X : RE) (gc : Nat) (input : String) :
    jsMatch ci (RE.cat RE.bol X) gc input =
      tryAt ci (RE.cat RE.bol X) gc input.toList.length input.toList := by
  unfold jsMatch
  cases hw : input.toList with
  | nil => simp only [tryMatch]
  | cons c t =>
      simp only [tryMatch]
      cases ha : tryAt ci (RE.cat RE.bol X) gc (c :: t).length (c :: t) with
      | some r => simp [ha]
      | none =>
          simp [ha, tryMatch_bol_none ci X gc (c :: t) t
            (by simp only [List.length_cons]; omega)]

theorem jsMatch_isSome_iff (X : RE) (gc : Nat) (input : String) :
    (jsMatch true (RE.cat RE.bol X) gc input).isSome ↔
      ∃ t, Accepts true input.toList.length (RE.cat RE.bol X) input.toList t := by
  rw [jsMatch_bol_eq_tryAt, tryAt_isSome]
  rw [mtch_isSome true input.toList.length (RE.cat RE.bol X) input.toList (initCaps gc)
    (fun caps rest => some (caps, rest)) (fun _ => True) (fun caps' s' => by simp)]
  simp only [and_true]

theorem accepts_cat_eps_iff (ci : Bool) (L : Nat) (R : RE) (s t : List Char) :
    Accepts ci L (RE.cat R RE.eps) s t ↔ Accepts ci L R s t := by
  constructor
  · rintro h
    cases h with
    | cat h1 h2 => cases h2; exact h1
  · intro h
    exact Accepts.cat h Accepts.eps

theorem accepts_anchored_iff (R : RE) (i : Nat) (s t : List Char) :
    Accepts true s.length (RE.cat RE.bol (RE.cat (RE.grp i R) (RE.cat RE.eol RE.eps))) s t ↔
      (Accepts true s.length R s [] ∧ t = []) := by
  constructor
  · rintro h
    cases h with
    | cat h1 h2 =>
        cases h1 with
        | bol hb =>
            cases h2 with
            | cat h3 h4 =>
                cases h3 with
                | grp h5 =>
                    cases h4 with
                    | cat h6 h7 =>
                        cases h6
                        cases h7
                        exact ⟨h5, rfl⟩
  · rintro ⟨h, rfl⟩
    exact Accepts.cat (Accepts.bol rfl)
      (Accepts.cat (Accepts.grp h) (Accepts.cat Accepts.eol Accepts.eps))

theorem accepts_repReq_digit (ci : Bool) (L : Nat) :
    ∀ (n : Nat) (s t : List Char),
      Accepts ci L (repReq RE.digit n) s t ↔
        ∃ p, s = p ++ t ∧ p.length = n ∧ p.all Char.isDigit = true := by
  intro n
  induction n with
  | zero =>
      intro s t
      simp only [repReq]
      constructor
      · intro h; cases h; exact ⟨[], by simp⟩
      · rintro ⟨p, rfl, hl, _⟩
        have hp : p = [] := List.length_eq_zero.mp hl
        subst hp
        exact Accepts.eps
  | succ n ih =>
      intro s t
      simp only [repReq]
      constructor
      · rintro h
        cases h with
        | cat h1 h2 =>
            cases h1 with
            | digit hd =>
                obtain ⟨p, rfl, hl, hall⟩ := (ih _ _).mp h2
                refine ⟨_ :: p, rfl, ?_, ?_⟩
                · simp [hl]
                · simp [List.all_cons, hd, hall]
      · rintro ⟨p, rfl, hl, hall⟩
        cases p with
        | nil => simp at hl
        | cons c p' =>
            simp only [List.all_cons, Bool.and_eq_true] at hall
            exact Accepts.cat (Accepts.digit hall.1)
              ((ih _ _).mpr ⟨p', rfl, by simp only [List.length_cons] at hl; omega, hall.2⟩)

theorem accepts_repOpt_digit (ci : Bool) (L : Nat) :
    ∀ (n : Nat) (s t : List Char),
      Accepts ci L (repOpt RE.digit n) s t ↔
        ∃ p, s = p ++ t ∧ p.length ≤ n ∧ p.all Char.isDigit = true := by
  intro n
  induction n with
  | zero =>
      intro s t
      simp only [repOpt]
      constructor
      · intro h; cases h; exact ⟨[], by simp⟩
      · rintro ⟨p, rfl, hl, _⟩
        have hp : p = [] := List.length_eq_zero.mp (Nat.le_zero.mp hl)
        subst hp
        exact Accepts.eps
  | succ n ih =>
      intro s t
      simp only [repOpt]
      constructor
      · intro h
        cases h with
        | optSome h' =>
            cases h' with
            | cat h1 h2 =>
                cases h1 with
                | digit hd =>
                    obtain ⟨p, rfl, hl, hall⟩ := (ih _ _).mp h2
                    refine ⟨_ :: p, rfl, ?_, ?_⟩
                    · simp only [List.length_cons]
                      omega
                    · simp [List.all_cons, hd, hall]
        | optNone => exact ⟨[], by simp⟩
      · rintro ⟨p, rfl, hl, hall⟩
        cases p with
        | nil => exact Accepts.optNone
        | cons c p' =>
            simp only [List.all_cons, Bool.and_eq_true] at hall
            exact Accepts.optSome (Accepts.cat (Accepts.digit hall.1)
              ((ih _ _).mpr ⟨p', rfl, by simp only [List.length_cons] at hl; omega, hall.2⟩))

theorem accepts_expandRep_digit (ci : Bool) (L : Nat) (lo hi : Nat) (hle : lo ≤ hi)
    (s : List Char) :
    Accepts ci L (expandRep RE.digit lo hi) s [] ↔
      (lo ≤ s.length ∧ s.length ≤ hi ∧ s.all Char.isDigit = true) := by
  simp only [expandRep]
  constructor
  · intro hc
    cases hc with
    | cat h1 h2 =>
        obtain ⟨p1, hs, hl1, hall1⟩ := (accepts_repReq_digit ci L lo _ _).mp h1
        obtain ⟨p2, ht, hl2, hall2⟩ := (accepts_repOpt_digit ci L (hi - lo) _ _).mp h2
        subst hs
        subst ht
        refine ⟨?_, ?_, ?_⟩
        · simp only [List.length_append, List.length_nil]
          omega
        · simp only [List.length_append, List.length_nil]
          omega
        · simp only [List.all_append, List.all_nil, Bool.and_eq_true, and_true]
          exact ⟨hall1, hall2⟩
  · rintro ⟨h1, h2, h3⟩
    have hsplit : s = s.take lo ++ s.drop lo := (List.take_append_drop lo s).symm
    refine Accepts.cat
      ((accepts_repReq_digit ci L lo _ _).mpr ⟨s.take lo, hsplit, ?_, ?_⟩)
      ((accepts_repOpt_digit ci L (hi - lo) _ _).mpr ⟨s.drop lo, by simp, ?_, ?_⟩)
    · simp only [List.length_take]
      omega
    · exact List.all_eq_true.mpr
        (fun x hx => List.all_eq_true.mp h3 x (List.mem_of_mem_take hx))
    · simp only [List.length_drop]
      omega
    · exact List.all_eq_true.mpr
        (fun x hx => List.all_eq_true.mp h3 x (List.mem_of_mem_drop hx))

/-! ## Claim C1 — failed match behaviour of the orchestrator -/

/-- C1.  The claim says that on a failed match the matcher returns null raw
captures and an empty raw field map (true), no exception is raised (true),
and `resolvedFields` and `zone` are absent/null.  The code disagrees on
`resolvedFields`: the guard `matches ? … : [null, null]` tests the raw
field map, a JS object that is truthy even when empty, so the `[null,
null]` arm is unreachable and the field resolver runs on the empty map —
the result carries an empty, *present* resolved-field object, not
null/absent (the zone is null as claimed).  Witnessed here at locale
`loc0`, format token `yyyy`, input `"x"`: raw captures are null and the
raw field map empty, but `result` is `some []`, not `none`. -/
theorem c1_failed_match_returns_empty_object :
    explainFromTokens ext0 loc0 "x" [Token.mk false "yyyy"] =
        some (ExplainResult.ok "x" [Token.mk false "yyyy"] "^(\\d\x7b4\x7d)$" none []
          (some []) none) ∧
      (some ([] : RMap) : Option RMap) ≠ none := by
  exact ⟨rfl, fun h => Option.noConfusion h⟩

/-! ## Claim C2 — literal descriptors do not escape pattern syntax -/

/-- C2.  The claim says a literal descriptor's sub-pattern matches exactly
the literal text, "characters escaped as needed for pattern syntax", and
that matching the exact literal text always succeeds.  The code builds
`RegExp(t.val)` with no escaping, so the literal text is interpreted as
pattern syntax: for the literal token `a|b` the assembled pattern is
`^(a|b)$`, matching the exact text `"a|b"` fails (null raw captures), while
the one-character input `"a"` — not the literal text — succeeds.  (The
"contributes no entry to the raw field map" part does hold: both field maps
are empty.) -/
theorem c2_literal_not_escaped :
    explainFromTokens ext0 loc0 "a|b" [Token.mk true "a|b"] =
        some (ExplainResult.ok "a|b" [Token.mk true "a|b"] "^(a|b)$" none [] (some []) none) ∧
      explainFromTokens ext0 loc0 "a" [Token.mk true "a|b"] =
        some (ExplainResult.ok "a" [Token.mk true "a|b"] "^(a|b)$"
          (some [some "a", some "a"]) [] (some []) none) := by
  exact ⟨rfl, rfl⟩

/-! ## Claim C4 — offset descriptors -/

/-- C4 counterexample.  The claim says an offset descriptor "declares
exactly one extra capture group beyond the primary"; the code declares
`groups: 2` (hour and minute), so the matcher consumes `2 + 1 = 3`
consecutive groups, not 2. -/
theorem c4_counterexample_groups_is_two :
    ∃ u, unitForToken ext0 (Token.mk false "Z") loc0 = Except.ok u ∧
      u.groups = some 2 ∧ groupsOf u = 3 ∧ u.groups ≠ some 1 :=
  ⟨_, rfl, rfl, rfl, fun h => by simp [offset] at h⟩

/-- C4 as amended: for each offset token `Z`, `ZZ`, `ZZZ`, the descriptor's
sub-pattern captures a sign-prefixed 1–2 digit hour and an optional
2-digit minute (colon-separated for `Z`/`ZZ`, bare for `ZZZ`), declares
exactly *two* extra capture groups beyond the primary, and its
deserializer resolves the hour and minute groups through the external
sign/magnitude decoder — e.g. `+05:30` to +330 minutes and `-0800` to
−480 minutes. -/
theorem c4_offset_descriptor (tv : String) (loc : Locale) (ext : Externals)
    (f : Option String) (hh : String) (mm : Option String)
    (htv : tv = "Z" ∨ tv = "ZZ" ∨ tv = "ZZZ") :
    ∃ u, unitForToken ext (Token.mk false tv) loc = Except.ok u ∧
      u.groups = some 2 ∧ groupsOf u = 3 ∧
      (u.regexSrc = "([+-]\\d\x7b1,2\x7d)(?::(\\d\x7b2\x7d))?" ∨
        u.regexSrc = "([+-]\\d\x7b1,2\x7d)(\\d\x7b2\x7d)?") ∧
      u.deser [f, some hh, mm] = Val.vnum (signedOffset hh mm) ∧
      signedOffset "+05" (some "30") = 330 ∧ signedOffset "-08" (some "00") = -480 := by
  rcases htv with rfl | rfl | rfl
  · exact ⟨_, rfl, rfl, rfl, Or.inl rfl, rfl, rfl, rfl⟩
  · exact ⟨_, rfl, rfl, rfl, Or.inl rfl, rfl, rfl, rfl⟩
  · exact ⟨_, rfl, rfl, rfl, Or.inr rfl, rfl, rfl, rfl⟩

/-- Witness for C4: the `Z` token with captures `["+05:30", "+05", "30"]`. -/
theorem c4_offset_descriptor_witness :
    ("Z" = "Z" ∨ "Z" = "ZZ" ∨ "Z" = "ZZZ") ∧
      ∃ u, unitForToken ext0 (Token.mk false "Z") loc0 = Except.ok u ∧
        u.groups = some 2 ∧ groupsOf u = 3 ∧
        (u.regexSrc = "([+-]\\d\x7b1,2\x7d)(?::(\\d\x7b2\x7d))?" ∨
          u.regexSrc = "([+-]\\d\x7b1,2\x7d)(\\d\x7b2\x7d)?") ∧
        u.deser [some "+05:30", some "+05", some "30"] =
          Val.vnum (signedOffset "+05" (some "30")) ∧
        signedOffset "+05" (some "30") = 330 ∧ signedOffset "-08" (some "00") = -480 :=
  ⟨Or.inl rfl,
    c4_offset_descriptor "Z" loc0 ext0 (some "+05:30") "+05" (some "30") (Or.inl rfl)⟩

/-! ## Claim C3 — enumeration matching -/

theorem jsFindIndexAux_eq {α : Type} (p : α → Bool) :
    ∀ (l : List α) (i off : Nat) (hi : i < l.length),
      p (l.get ⟨i, hi⟩) = true →
      (∀ j (hj : j < i), p (l.get ⟨j, Nat.lt_trans hj hi⟩) = false) →
      jsFindIndexAux p l off = ((off + i : Nat) : Int) := by
  intro l
  induction l with
  | nil => intro i off hi; exact absurd hi (Nat.not_lt_zero i)
  | cons x rest ih =>
      intro i off hi hp hfirst
      cases i with
      | zero =>
          simp only [jsFindIndexAux]
          rw [if_pos (show p x = true from hp)]
          simp
      | succ n =>
          have hx : p x = false := hfirst 0 (Nat.succ_pos n)
          simp only [jsFindIndexAux]
          rw [if_neg (by simp [hx])]
          rw [ih n (off + 1) (Nat.lt_of_succ_lt_succ hi) hp
            (fun j hj => hfirst (j + 1) (Nat.succ_lt_succ hj))]
          congr 1
          omega

theorem jsFindIndex_eq {α : Type} (p : α → Bool) (l : List α) (i : Nat) (hi : i < l.length)
    (hp : p (l.get ⟨i, hi⟩) = true)
    (hfirst : ∀ j (hj : j < i), p (l.get ⟨j, Nat.lt_trans hj hi⟩) = false) :
    jsFindIndex p l = (i : Int) := by
  have h := jsFindIndexAux_eq p l i 0 hi hp hfirst
  simpa [jsFindIndex] using h

/-- C3 counterexample.  The claim says that "periods are stripped" before
comparison (the spec's normalization removes every period).  The code's
`stripInsensitivities` uses `replace(/\./, '')` without the `g` flag, so
only the *first* period is removed: for candidates `["b", "b.."]` and
matched text `"b.."`, the spec's normalization makes the first candidate
(`"b"`, position 0, result 0 + 1 = 1) the match, but the code normalizes
`"b.."` to `"b."` and returns position 1, i.e. 2. -/
theorem c3_counterexample_second_period :
    ∃ u, oneOf (some ["b", "b.."]) 1 = some u ∧
      u.deser [some "b.."] = Val.vnum 2 ∧
      specNormalize "b.." = specNormalize "b" ∧
      List.findIdx? (fun c => specNormalize "b.." == specNormalize c) ["b", "b.."] =
        some 0 ∧
      Val.vnum 2 ≠ Val.vnum ((0 : Nat) + 1) := by
  exact ⟨_, rfl, rfl, rfl, rfl, by decide⟩

/-- C3 as amended: enumeration matching is case-insensitive and
punctuation-insensitive on the *first* period — before comparing, the
first period is removed and both sides lower-cased (further periods take
part in the comparison literally); the sub-pattern is the alternation of
the candidates with their first dot made optional and literal; and the
deserializer returns the position of the first candidate whose normalized
form equals the normalized matched text, plus the origin index (so
candidate "Jan." still matches inputs "jan", "JAN." and "Jan" identically,
all resolving to the same ordinal). -/
theorem c3_enum_deserializer (strings : List String) (start : Int) (s : String)
    (i : Nat) (hi : i < strings.length)
    (heq : stripInsensitivities s = stripInsensitivities (strings.get ⟨i, hi⟩))
    (hfirst : ∀ j (hj : j < i),
      stripInsensitivities s ≠ stripInsensitivities (strings.get ⟨j, Nat.lt_trans hj hi⟩)) :
    ∃ u, oneOf (some strings) start = some u ∧
      u.regexSrc = String.intercalate "|" (strings.map fixListRegex) ∧
      u.deser [some s] = Val.vnum ((i : Int) + start) := by
  refine ⟨_, rfl, rfl, ?_⟩
  show Val.vnum
      (jsFindIndex
        (fun cand => stripInsensitivities (cap0 [some s]) == stripInsensitivities cand)
        strings + start) = Val.vnum ((i : Int) + start)
  have hcap : cap0 [some s] = s := rfl
  rw [hcap]
  rw [jsFindIndex_eq _ strings i hi (by simpa using heq)
    (fun j hj => by simpa using hfirst j hj)]

/-- Witness for C3: candidate list `["Jan.", "Feb."]`, origin 1, matched
text `"JAN."` resolves to position 0 plus origin. -/
theorem c3_enum_deserializer_witness :
    stripInsensitivities "JAN." =
        stripInsensitivities (["Jan.", "Feb."].get ⟨0, by decide⟩) ∧
      ∃ u, oneOf (some ["Jan.", "Feb."]) 1 = some u ∧
        u.regexSrc = String.intercalate "|" (["Jan.", "Feb."].map fixListRegex) ∧
        u.deser [some "JAN."] = Val.vnum (((0 : Nat) : Int) + 1) :=
  ⟨rfl, c3_enum_deserializer ["Jan.", "Feb."] 1 "JAN." 0 (by decide) rfl
    (fun j hj => absurd hj (Nat.not_lt_zero j))⟩

/-! ## Claim C5 — unsupported localized enumerations -/

theorem compileUnits_error_of_unitate_none (ext : Externals) (loc : Locale) :
    ∀ (tokens : List Token) (i : Nat) (hi : i < tokens.length),
      unitate ext (tokens.get ⟨i, hi⟩) loc = none →
      compileUnits ext loc tokens = Except.error MISSING_FTP := by
  intro tokens
  induction tokens with
  | nil => intro i hi; exact absurd hi (Nat.not_lt_zero i)
  | cons t rest ih =>
      intro i hi hbad
      cases i with
      | zero =>
          simp only [compileUnits, unitForToken]
          rw [show unitate ext t loc = none from hbad]
      | succ n =>
          simp only [compileUnits]
          cases hu : unitForToken ext t loc with
          | error r =>
              unfold unitForToken at hu
              cases h2 : unitate ext t loc with
              | some u => rw [h2] at hu; exact Except.noConfusion hu
              | none =>
                  rw [h2] at hu
                  cases hu
                  rfl
          | ok u =>
              rw [ih n (Nat.lt_of_succ_lt_succ hi) hbad]
              rfl

/-- C5.  If any token's required localized enumeration is unavailable
(`unitate` yields null for it), the orchestrator stops during compilation
and returns the result carrying only `{input, tokens, invalidReason}`, for
every input; no pattern is assembled and no match is attempted. -/
theorem c5_unsupported_enumeration (ext : Externals) (loc : Locale) (input : String)
    (tokens : List Token) (i : Nat) (hi : i < tokens.length)
    (hbad : unitate ext (tokens.get ⟨i, hi⟩) loc = none) :
    explainFromTokens ext loc input tokens =
      some (ExplainResult.invalid input tokens MISSING_FTP) := by
  unfold explainFromTokens
  rw [compileUnits_error_of_unitate_none ext loc tokens i hi hbad]

/-- Witness for C5: the meridiem token `a` under a locale without
formatToParts support, for a concrete input. -/
theorem c5_unsupported_enumeration_witness :
    unitate ext0 ([Token.mk false "a"].get ⟨0, by decide⟩) loc0 = none ∧
      explainFromTokens ext0 loc0 "2:15 PM" [Token.mk false "a"] =
        some (ExplainResult.invalid "2:15 PM" [Token.mk false "a"] MISSING_FTP) :=
  ⟨rfl, c5_unsupported_enumeration ext0 loc0 "2:15 PM" [Token.mk false "a"] 0
    (Nat.succ_pos 0) rfl⟩

/-! ## Claim C8 — the raw field map is keyed last-match-wins -/

theorem matchLoop_nodup (caps : List (Option String)) :
    ∀ (hs : List TUnit) (idx : Nat) (all : FieldMap),
      (all.map Prod.fst).Nodup → ((matchLoop caps hs idx all).map Prod.fst).Nodup := by
  intro hs
  induction hs with
  | nil => intro idx all h; exact h
  | cons h rest ih =>
      intro idx all hnd
      simp only [matchLoop]
      by_cases hc : (!h.literal && h.token.isSome) = true
      · rw [if_pos hc]
        exact ih _ _ (nodup_keys_jsSet _ _ _ hnd)
      · rw [if_neg hc]
        exact ih _ _ hnd

theorem matchLoop_get (caps : List (Option String)) :
    ∀ (hs : List TUnit) (idx : Nat) (all : FieldMap) (key : Char),
      jsGet (matchLoop caps hs idx all) key =
        orO (lastVal (contribs caps hs idx key)) (jsGet all key) := by
  intro hs
  induction hs with
  | nil => intro idx all key; rfl
  | cons h rest ih =>
      intro idx all key
      simp only [matchLoop, contribs]
      rw [ih]
      by_cases h1 : h.literal = true
      · rw [if_neg (by simp [h1]), if_neg (by simp [h1])]
        rw [List.nil_append]
      · by_cases h2 : h.token.isSome = true
        · rw [if_pos (by simp [h1, h2])]
          by_cases h3 : tokenKey h = key
          · rw [if_pos ⟨by simp [h1], h2, h3⟩, jsGet_jsSet]
            rw [if_pos h3.symm]
            rw [List.singleton_append, lastVal_cons, orO_assoc]
            rfl
          · rw [if_neg (fun hc => h3 hc.2.2), jsGet_jsSet,
              if_neg (fun hc => h3 hc.symm), List.nil_append]
        · rw [if_neg (by simp [h2]), if_neg (fun hc => h2 hc.2.1), List.nil_append]

/-- C8.  For every descriptor list and every input the assembled pattern
matches, the raw field map has at most one entry per key (its key list has
no duplicates), and the value found under a key is the *last* of the
values contributed for that key — one per non-literal descriptor whose
owning token's code starts with that character, deserialized from the
descriptor's group slice at its running group index; literal descriptors
contribute nothing (see `contribs`). -/
theorem c8_last_match_wins (input : String) (re : RE) (gc : Nat) (handlers : List TUnit)
    (caps : List (Option String)) (key : Char)
    (hm : jsMatch true re gc input = some caps) :
    (((matchUnits input re gc handlers).2).map Prod.fst).Nodup ∧
      jsGet (matchUnits input re gc handlers).2 key =
        lastVal (contribs caps handlers 1 key) := by
  unfold matchUnits
  rw [hm]
  constructor
  · exact matchLoop_nodup caps handlers 1 [] (by simp)
  · rw [matchLoop_get caps handlers 1 [] key]
    exact orO_none_right _

/-- The compiled pattern of the format `M-MM` (tokens `M`, literal `-`,
`MM`), for the C8 witness. -/
def reC8 : RE :=
  ((parseRE "^(\\d\x7b1,2\x7d)(-)(\\d\x7b2\x7d)$").getD (RE.eps, 0)).1

/-- The descriptors of the format `M-MM`, for the C8 witness. -/
def unitsC8 : List TUnit :=
  ((compileUnits ext0 loc0
    [Token.mk false "M", Token.mk true "-", Token.mk false "MM"]).toOption).getD []

/-- Witness for C8: format `M-MM` against `"3-12"` — the two month tokens
share the leading character `M`; the map holds the later value 12, not 3,
and its keys are duplicate-free. -/
theorem c8_last_match_wins_witness :
    jsMatch true reC8 3 "3-12" = some [some "3-12", some "3", some "-", some "12"] ∧
      ((((matchUnits "3-12" reC8 3 unitsC8).2).map Prod.fst).Nodup ∧
        jsGet (matchUnits "3-12" reC8 3 unitsC8).2 'M' =
          lastVal (contribs [some "3-12", some "3", some "-", some "12"] unitsC8 1 'M')) ∧
      jsGet (matchUnits "3-12" reC8 3 unitsC8).2 'M' = some (Val.vnum 12) ∧
      contribs [some "3-12", some "3", some "-", some "12"] unitsC8 1 'M' =
        [Val.vnum 3, Val.vnum 12] :=
  ⟨rfl, c8_last_match_wins "3-12" reC8 3 unitsC8 _ 'M' rfl, rfl, rfl⟩

/-! ## Claim C9 — the empty token list -/

theorem matchUnits_of_none (input : String) (re : RE) (gc : Nat) (handlers : List TUnit)
    (h : jsMatch true re gc input = none) :
    matchUnits input re gc handlers = (none, []) := by
  unfold matchUnits
  rw [h]

theorem string_eq_empty_of_toList (input : String) (h : input.toList = []) : input = "" := by
  obtain ⟨data⟩ := input
  have hd : data = [] := h
  subst hd
  rfl

theorem jsMatch_empty_pattern_none (input : String) (h : input.toList ≠ []) :
    jsMatch true (RE.cat RE.bol (RE.cat RE.eol RE.eps)) 0 input = none := by
  rw [jsMatch_bol_eq_tryAt]
  unfold tryAt
  have hm : mtch true input.toList.length (RE.cat RE.bol (RE.cat RE.eol RE.eps))
      input.toList (initCaps 0) (fun caps rest => some (caps, rest)) = none := by
    simp only [mtch, if_true]
    rw [if_neg h]
  rw [hm]

/-- C9.  With an empty token list the assembled pattern is the anchored
empty pattern `^$`; matching succeeds exactly when the input is empty, and
a successful parse yields the empty resolved field set and a null zone
(on failure the raw captures are null; the raw field map is empty either
way). -/
theorem c9_empty_token_list (ext : Externals) (loc : Locale) (input : String) :
    explainFromTokens ext loc input [] =
      some (ExplainResult.ok input [] "^$" (if input = "" then some [some ""] else none) []
        (some []) none) := by
  by_cases h : input = ""
  · subst h
    rw [if_pos rfl]
    rfl
  · rw [if_neg h]
    have h1 : explainFromTokens ext loc input [] =
        some (ExplainResult.ok input [] "^$"
          (matchUnits input (RE.cat RE.bol (RE.cat RE.eol RE.eps)) 0 []).1
          (matchUnits input (RE.cat RE.bol (RE.cat RE.eol RE.eps)) 0 []).2
          (some (dateTimeFromMatches
            (matchUnits input (RE.cat RE.bol (RE.cat RE.eol RE.eps)) 0 []).2).1)
          (dateTimeFromMatches
            (matchUnits input (RE.cat RE.bol (RE.cat RE.eol RE.eps)) 0 []).2).2) := rfl
    rw [h1, matchUnits_of_none input _ 0 []
      (jsMatch_empty_pattern_none input (fun hc => h (string_eq_empty_of_toList input hc)))]
    rfl

/-! ## Claim C10 — widths of the `y` and `u` sub-patterns -/

theorem acceptsSrc_digit_run (lo hi : Nat) (hle : lo ≤ hi) (src : String) (s : String)
    (hp : parseRE ("^(" ++ src ++ ")$") =
      some (RE.cat RE.bol (RE.cat (RE.grp 1 (RE.cat (expandRep RE.digit lo hi) RE.eps))
        (RE.cat RE.eol RE.eps)), 1)) :
    (acceptsSrc src s = true) ↔
      (lo ≤ s.length ∧ s.length ≤ hi ∧ s.toList.all Char.isDigit = true) := by
  unfold acceptsSrc
  rw [hp]
  show (jsMatch true (RE.cat RE.bol (RE.cat (RE.grp 1
    (RE.cat (expandRep RE.digit lo hi) RE.eps)) (RE.cat RE.eol RE.eps))) 1 s).isSome =
      true ↔ _
  rw [jsMatch_isSome_iff]
  constructor
  · rintro ⟨t, ht⟩
    rw [accepts_anchored_iff] at ht
    obtain ⟨hacc, rfl⟩ := ht
    rw [accepts_cat_eps_iff] at hacc
    exact (accepts_expandRep_digit true _ lo hi hle s.toList).mp hacc
  · intro hcond
    exact ⟨[], (accepts_anchored_iff _ 1 _ _).mpr
      ⟨(accepts_cat_eps_iff _ _ _ _ _).mpr
        ((accepts_expandRep_digit true _ lo hi hle s.toList).mpr hcond), rfl⟩⟩

/-- C10.  The single-letter year token `y` compiles to the sub-pattern
`\d{1,6}` accepting digit runs of length 1 through 6 (not merely 1–2), and
the fractional-seconds token `u` compiles to `\d{1,9}` accepting digit
runs of length 1 through 9, with a deserializer returning the captured
text unmodified. -/
theorem c10_year_and_fraction_tokens (ext : Externals) (loc : Locale) (s : String) :
    (∃ u, unitate ext (Token.mk false "y") loc = some u ∧
        u.regexSrc = "\\d\x7b1,6\x7d") ∧
      (∃ u, unitate ext (Token.mk false "u") loc = some u ∧
        u.regexSrc = "\\d\x7b1,9\x7d" ∧ ∀ t : String, u.deser [some t] = Val.vstr t) ∧
      ((acceptsSrc "\\d\x7b1,6\x7d" s = true) ↔
        (1 ≤ s.length ∧ s.length ≤ 6 ∧ s.toList.all Char.isDigit = true)) ∧
      ((acceptsSrc "\\d\x7b1,9\x7d" s = true) ↔
        (1 ≤ s.length ∧ s.length ≤ 9 ∧ s.toList.all Char.isDigit = true)) := by
  refine ⟨⟨_, rfl, rfl⟩, ⟨_, rfl, rfl, fun t => rfl⟩, ?_, ?_⟩
  · exact acceptsSrc_digit_run 1 6 (by omega) "\\d\x7b1,6\x7d" s rfl
  · exact acceptsSrc_digit_run 1 9 (by omega) "\\d\x7b1,9\x7d" s rfl

/-! ## Claims C6 and C7 — the 12-hour and era adjustments -/

theorem renameStep_get_aux (f : String) :
    ∀ (m : FieldMap) (r : RMap),
      jsGet (m.foldl (fun r kv =>
          match toField kv.1 with
          | some f' => jsSet r f' kv.2
          | none => r) r) f =
        orO (lastVal (m.filterMap (fun kv =>
          if toField kv.1 = some f then some kv.2 else none))) (jsGet r f) := by
  intro m
  induction m with
  | nil => intro r; rfl
  | cons kv rest ih =>
      intro r
      obtain ⟨k, v⟩ := kv
      rw [List.foldl_cons]
      cases hf : toField k with
      | none =>
          dsimp only
          rw [ih r]
          rw [List.filterMap_cons_none (by simp [hf])]
      | some f' =>
          dsimp only
          rw [ih (jsSet r f' v), jsGet_jsSet]
          by_cases hff : f' = f
          · subst hff
            rw [if_pos rfl]
            rw [List.filterMap_cons_some (show _ = some v from by simp [hf])]
            rw [lastVal_cons, orO_assoc]
            rfl
          · rw [if_neg (fun hc => hff hc.symm)]
            rw [List.filterMap_cons_none (by simp [hf, hff])]

theorem filterMap_field_unique (f : String) (key : Char) :
    ∀ (m : FieldMap) (v : Val), (m.map Prod.fst).Nodup →
      (∀ kv ∈ m, toField kv.1 = some f → kv.1 = key) →
      toField key = some f →
      jsGet m key = some v →
      m.filterMap (fun kv => if toField kv.1 = some f then some kv.2 else none) = [v] := by
  intro m
  induction m with
  | nil => intro v _ _ _ hg; exact Option.noConfusion hg
  | cons kv rest ih =>
      intro v hnd hother hkey hg
      obtain ⟨k1, v1⟩ := kv
      simp only [List.map_cons, List.nodup_cons] at hnd
      by_cases h1 : k1 = key
      · subst h1
        have hv : v1 = v := by
          simp only [jsGet, if_pos rfl] at hg
          exact Option.some.inj hg
        subst hv
        rw [List.filterMap_cons_some (show _ = some v1 from by
          simp only []
          exact if_pos hkey)]
        have hrest : ∀ kv ∈ rest,
            (if toField (kv : Char × Val).1 = some f then some kv.2 else none) = none := by
          intro kv hm
          by_cases hc : toField kv.1 = some f
          · exfalso
            apply hnd.1
            have hk : kv.1 = k1 := hother kv (List.mem_cons_of_mem _ hm) hc
            rw [← hk]
            exact List.mem_map_of_mem Prod.fst hm
          · exact if_neg hc
        rw [List.filterMap_eq_nil_iff.mpr hrest]
      · have hg' : jsGet rest key = some v := by
          simp only [jsGet] at hg
          rwa [if_neg h1] at hg
        rw [List.filterMap_cons_none (show _ = none from by
          simp only []
          exact if_neg (fun hc => h1 (hother (k1, v1) (List.mem_cons_self _ _) hc)))]
        exact ih v hnd.2 (fun kv hm hc => hother kv (List.mem_cons_of_mem _ hm) hc) hkey hg'

theorem hourStep_shape (m : FieldMap) :
    hourStep m = m ∨ ∃ v, hourStep m = jsSet m 'h' v := by
  unfold hourStep
  cases jsGet m 'h' with
  | none => exact Or.inl rfl
  | some v =>
      cases v with
      | vstr s => exact Or.inl rfl
      | vnum h =>
          dsimp only
          by_cases h1 : h < 12 ∧ jsGet m 'a' = some (Val.vnum 1)
          · rw [if_pos h1]; exact Or.inr ⟨_, rfl⟩
          · rw [if_neg h1]
            by_cases h2 : h = 12 ∧ jsGet m 'a' = some (Val.vnum 0)
            · rw [if_pos h2]; exact Or.inr ⟨_, rfl⟩
            · rw [if_neg h2]; exact Or.inl rfl

theorem eraStep_shape (m : FieldMap) :
    eraStep m = m ∨ ∃ v, eraStep m = jsSet m 'y' v := by
  unfold eraStep
  by_cases h1 : jsGet m 'G' = some (Val.vnum 0) ∧ yTruthy m = true
  · rw [if_pos h1]
    cases jsGet m 'y' with
    | none => exact Or.inl rfl
    | some v =>
        cases v with
        | vnum n => exact Or.inr ⟨_, rfl⟩
        | vstr s => exact Or.inl rfl
  · rw [if_neg h1]
    exact Or.inl rfl

theorem uStep_shape (m : FieldMap) :
    uStep m = m ∨ ∃ v, uStep m = jsSet m 'S' v := by
  unfold uStep
  cases jsGet m 'u' with
  | none => exact Or.inl rfl
  | some v =>
      cases v with
      | vstr s => exact Or.inr ⟨_, rfl⟩
      | vnum n => exact Or.inr ⟨_, rfl⟩

theorem shape_get_ne {m m' : FieldMap} {key : Char}
    (h : m' = m ∨ ∃ v, m' = jsSet m key v) (k : Char) (hk : k ≠ key) :
    jsGet m' k = jsGet m k := by
  rcases h with rfl | ⟨v, rfl⟩
  · rfl
  · rw [jsGet_jsSet, if_neg hk]

theorem shape_nodup {m m' : FieldMap} {key : Char}
    (h : m' = m ∨ ∃ v, m' = jsSet m key v) (hnd : (m.map Prod.fst).Nodup) :
    (m'.map Prod.fst).Nodup := by
  rcases h with rfl | ⟨v, rfl⟩
  · exact hnd
  · exact nodup_keys_jsSet m key v hnd

theorem shape_not_mem {m m' : FieldMap} {key : Char}
    (h : m' = m ∨ ∃ v, m' = jsSet m key v) (k : Char) (hk : k ≠ key)
    (hmem : k ∉ m.map Prod.fst) : k ∉ m'.map Prod.fst := by
  rcases h with rfl | ⟨v, rfl⟩
  · exact hmem
  · rw [mem_keys_jsSet]
    rintro (hc | hc)
    · exact hmem hc
    · exact hk hc

theorem toField_hour_cases (c : Char) (h : toField c = some "hour") : c = 'h' ∨ c = 'H' := by
  unfold toField at h
  by_cases hx0 : c = 'S'
  · rw [if_pos hx0] at h; exact absurd h (by decide)
  rw [if_neg hx0] at h
  by_cases hx1 : c = 's'
  · rw [if_pos hx1] at h; exact absurd h (by decide)
  rw [if_neg hx1] at h
  by_cases hx2 : c = 'm'
  · rw [if_pos hx2] at h; exact absurd h (by decide)
  rw [if_neg hx2] at h
  by_cases hx3 : c = 'h'
  · exact Or.inl hx3
  rw [if_neg hx3] at h
  by_cases hx4 : c = 'H'
  · exact Or.inr hx4
  rw [if_neg hx4] at h
  by_cases hx5 : c = 'd'
  · rw [if_pos hx5] at h; exact absurd h (by decide)
  rw [if_neg hx5] at h
  by_cases hx6 : c = 'o'
  · rw [if_pos hx6] at h; exact absurd h (by decide)
  rw [if_neg hx6] at h
  by_cases hx7 : c = 'L'
  · rw [if_pos hx7] at h; exact absurd h (by decide)
  rw [if_neg hx7] at h
  by_cases hx8 : c = 'M'
  · rw [if_pos hx8] at h; exact absurd h (by decide)
  rw [if_neg hx8] at h
  by_cases hx9 : c = 'y'
  · rw [if_pos hx9] at h; exact absurd h (by decide)
  rw [if_neg hx9] at h
  by_cases hx10 : c = 'E'
  · rw [if_pos hx10] at h; exact absurd h (by decide)
  rw [if_neg hx10] at h
  by_cases hx11 : c = 'c'
  · rw [if_pos hx11] at h; exact absurd h (by decide)
  rw [if_neg hx11] at h
  by_cases hx12 : c = 'W'
  · rw [if_pos hx12] at h; exact absurd h (by decide)
  rw [if_neg hx12] at h
  by_cases hx13 : c = 'k'
  · rw [if_pos hx13] at h; exact absurd h (by decide)
  rw [if_neg hx13] at h
  exact Option.noConfusion h

theorem toField_year_cases (c : Char) (h : toField c = some "year") : c = 'y' := by
  unfold toField at h
  by_cases hx0 : c = 'S'
  · rw [if_pos hx0] at h; exact absurd h (by decide)
  rw [if_neg hx0] at h
  by_cases hx1 : c = 's'
  · rw [if_pos hx1] at h; exact absurd h (by decide)
  rw [if_neg hx1] at h
  by_cases hx2 : c = 'm'
  · rw [if_pos hx2] at h; exact absurd h (by decide)
  rw [if_neg hx2] at h
  by_cases hx3 : c = 'h'
  · rw [if_pos hx3] at h; exact absurd h (by decide)
  rw [if_neg hx3] at h
  by_cases hx4 : c = 'H'
  · rw [if_pos hx4] at h; exact absurd h (by decide)
  rw [if_neg hx4] at h
  by_cases hx5 : c = 'd'
  · rw [if_pos hx5] at h; exact absurd h (by decide)
  rw [if_neg hx5] at h
  by_cases hx6 : c = 'o'
  · rw [if_pos hx6] at h; exact absurd h (by decide)
  rw [if_neg hx6] at h
  by_cases hx7 : c = 'L'
  · rw [if_pos hx7] at h; exact absurd h (by decide)
  rw [if_neg hx7] at h
  by_cases hx8 : c = 'M'
  · rw [if_pos hx8] at h; exact absurd h (by decide)
  rw [if_neg hx8] at h
  by_cases hx9 : c = 'y'
  · exact id hx9
  rw [if_neg hx9] at h
  by_cases hx10 : c = 'E'
  · rw [if_pos hx10] at h; exact absurd h (by decide)
  rw [if_neg hx10] at h
  by_cases hx11 : c = 'c'
  · rw [if_pos hx11] at h; exact absurd h (by decide)
  rw [if_neg hx11] at h
  by_cases hx12 : c = 'W'
  · rw [if_pos hx12] at h; exact absurd h (by decide)
  rw [if_neg hx12] at h
  by_cases hx13 : c = 'k'
  · rw [if_pos hx13] at h; exact absurd h (by decide)
  rw [if_neg hx13] at h
  exact Option.noConfusion h

theorem hourStep_get_h (m : FieldMap) (h a : Int)
    (hh : jsGet m 'h' = some (Val.vnum h)) (ha : jsGet m 'a' = some (Val.vnum a)) :
    jsGet (hourStep m) 'h' =
      some (Val.vnum (if h < 12 ∧ a = 1 then h + 12
        else if h = 12 ∧ a = 0 then 0 else h)) := by
  unfold hourStep
  rw [hh, ha]
  dsimp only
  by_cases h1 : h < 12 ∧ a = 1
  · rw [if_pos ⟨h1.1, by rw [h1.2]⟩, jsGet_jsSet, if_pos rfl, if_pos h1]
  · have hc1 : ¬(h < 12 ∧ some (Val.vnum a) = some (Val.vnum 1)) := by
      rintro ⟨hlt, heq⟩
      exact h1 ⟨hlt, by simpa using heq⟩
    rw [if_neg hc1]
    by_cases h2 : h = 12 ∧ a = 0
    · rw [if_pos ⟨h2.1, by rw [h2.2]⟩, jsGet_jsSet, if_pos rfl, if_neg h1, if_pos h2]
    · have hc2 : ¬(h = 12 ∧ some (Val.vnum a) = some (Val.vnum 0)) := by
        rintro ⟨he, heq⟩
        exact h2 ⟨he, by simpa using heq⟩
      rw [if_neg hc2, hh, if_neg h1, if_neg h2]

theorem eraStep_get_y (m : FieldMap) (g y : Int)
    (hG : jsGet m 'G' = some (Val.vnum g)) (hy : jsGet m 'y' = some (Val.vnum y)) :
    jsGet (eraStep m) 'y' = some (Val.vnum (if g = 0 then -y else y)) := by
  have hyt : yTruthy m = decide (y ≠ 0) := by
    unfold yTruthy
    rw [hy]
  unfold eraStep
  by_cases hg : g = 0
  · subst hg
    by_cases hy0 : y = 0
    · subst hy0
      rw [if_neg (by
        rintro ⟨_, ht⟩
        rw [hyt] at ht
        simp at ht)]
      rw [hy]
      norm_num
    · rw [if_pos ⟨by rw [hG], by rw [hyt]; simpa using hy0⟩]
      rw [hy]
      dsimp only
      rw [jsGet_jsSet, if_pos rfl, if_pos rfl]
  · rw [if_neg (by
      rintro ⟨hc, _⟩
      rw [hG] at hc
      exact hg (by simpa using hc))]
    rw [hy, if_neg hg]

/-- C6.  For every raw field map with duplicate-free keys containing an
hour value under `h` and a meridiem flag under `a` (and no competing `H`
key, which would claim the same resolved field name): if the hour is below
12 and the flag indicates PM (index 1), the resolved hour is `h + 12`; if
the hour equals 12 and the flag indicates AM (index 0), the resolved hour
is 0; every other hour/flag combination leaves the hour unchanged. -/
theorem c6_twelve_hour_adjustment (m : FieldMap) (h a : Int)
    (hnd : (m.map Prod.fst).Nodup)
    (hh : jsGet m 'h' = some (Val.vnum h))
    (ha : jsGet m 'a' = some (Val.vnum a))
    (hH : 'H' ∉ m.map Prod.fst) :
    jsGet (dateTimeFromMatches m).1 "hour" =
      some (Val.vnum (if h < 12 ∧ a = 1 then h + 12
        else if h = 12 ∧ a = 0 then 0 else h)) := by
  have hs1 := hourStep_shape m
  have hs2 := eraStep_shape (hourStep m)
  have hs3 := uStep_shape (eraStep (hourStep m))
  have h3h : jsGet (uStep (eraStep (hourStep m))) 'h' =
      some (Val.vnum (if h < 12 ∧ a = 1 then h + 12
        else if h = 12 ∧ a = 0 then 0 else h)) := by
    rw [shape_get_ne hs3 'h' (by decide), shape_get_ne hs2 'h' (by decide)]
    exact hourStep_get_h m h a hh ha
  have h3nd : ((uStep (eraStep (hourStep m))).map Prod.fst).Nodup :=
    shape_nodup hs3 (shape_nodup hs2 (shape_nodup hs1 hnd))
  have h3H : 'H' ∉ (uStep (eraStep (hourStep m))).map Prod.fst :=
    shape_not_mem hs3 'H' (by decide) (shape_not_mem hs2 'H' (by decide)
      (shape_not_mem hs1 'H' (by decide) hH))
  show jsGet (renameStep (uStep (eraStep (hourStep m)))) "hour" = _
  unfold renameStep
  rw [renameStep_get_aux]
  rw [filterMap_field_unique "hour" 'h' (uStep (eraStep (hourStep m))) _ h3nd
    (fun kv hm hc => (toField_hour_cases kv.1 hc).resolve_right
      (fun hHH => h3H (by rw [← hHH]; exact List.mem_map_of_mem Prod.fst hm)))
    (by decide) h3h]
  rfl

/-- Witness for C6: the map `{h: 5, a: 1}` (hour 5, PM) resolves to hour
17. -/
theorem c6_twelve_hour_adjustment_witness :
    ((([('h', Val.vnum 5), ('a', Val.vnum 1)] : FieldMap).map Prod.fst).Nodup ∧
      jsGet ([('h', Val.vnum 5), ('a', Val.vnum 1)] : FieldMap) 'h' = some (Val.vnum 5) ∧
      jsGet ([('h', Val.vnum 5), ('a', Val.vnum 1)] : FieldMap) 'a' = some (Val.vnum 1) ∧
      'H' ∉ ([('h', Val.vnum 5), ('a', Val.vnum 1)] : FieldMap).map Prod.fst) ∧
    jsGet (dateTimeFromMatches [('h', Val.vnum 5), ('a', Val.vnum 1)]).1 "hour" =
      some (Val.vnum (if (5 : Int) < 12 ∧ (1 : Int) = 1 then 5 + 12
        else if (5 : Int) = 12 ∧ (1 : Int) = 0 then 0 else 5)) ∧
    (if (5 : Int) < 12 ∧ (1 : Int) = 1 then (5 : Int) + 12
        else if (5 : Int) = 12 ∧ (1 : Int) = 0 then 0 else 5) = 17 :=
  ⟨⟨by decide, rfl, rfl, by decide⟩,
    c6_twelve_hour_adjustment [('h', Val.vnum 5), ('a', Val.vnum 1)] 5 1
      (by decide) rfl rfl (by decide),
    by decide⟩

/-- C7.  For every raw field map with duplicate-free keys containing an
era flag under `G` and a year value under `y`: when the era indicates BCE
(index 0) the resolved year is the negated captured year, and when the era
indicates CE (any other index) the year is unchanged.  (For year 0 the
code skips the negation because 0 is falsy, but −0 = 0, so the resolved
value is the negation in every case.) -/
theorem c7_era_adjustment (m : FieldMap) (g y : Int)
    (hnd : (m.map Prod.fst).Nodup)
    (hG : jsGet m 'G' = some (Val.vnum g))
    (hy : jsGet m 'y' = some (Val.vnum y)) :
    jsGet (dateTimeFromMatches m).1 "year" =
      some (Val.vnum (if g = 0 then -y else y)) := by
  have hs1 := hourStep_shape m
  have hs3 := uStep_shape (eraStep (hourStep m))
  have h1G : jsGet (hourStep m) 'G' = some (Val.vnum g) := by
    rw [shape_get_ne hs1 'G' (by decide)]
    exact hG
  have h1y : jsGet (hourStep m) 'y' = some (Val.vnum y) := by
    rw [shape_get_ne hs1 'y' (by decide)]
    exact hy
  have h3y : jsGet (uStep (eraStep (hourStep m))) 'y' =
      some (Val.vnum (if g = 0 then -y else y)) := by
    rw [shape_get_ne hs3 'y' (by decide)]
    exact eraStep_get_y (hourStep m) g y h1G h1y
  have h3nd : ((uStep (eraStep (hourStep m))).map Prod.fst).Nodup :=
    shape_nodup hs3 (shape_nodup (eraStep_shape (hourStep m)) (shape_nodup hs1 hnd))
  show jsGet (renameStep (uStep (eraStep (hourStep m)))) "year" = _
  unfold renameStep
  rw [renameStep_get_aux]
  rw [filterMap_field_unique "year" 'y' (uStep (eraStep (hourStep m))) _ h3nd
    (fun kv _ hc => toField_year_cases kv.1 hc) (by decide) h3y]
  rfl

/-- Witness for C7: the map `{G: 0, y: 44}` (era BCE, year 44) resolves to
year −44. -/
theorem c7_era_adjustment_witness :
    ((([('G', Val.vnum 0), ('y', Val.vnum 44)] : FieldMap).map Prod.fst).Nodup ∧
      jsGet ([('G', Val.vnum 0), ('y', Val.vnum 44)] : FieldMap) 'G' = some (Val.vnum 0) ∧
      jsGet ([('G', Val.vnum 0), ('y', Val.vnum 44)] : FieldMap) 'y' = some (Val.vnum 44)) ∧
    jsGet (dateTimeFromMatches [('G', Val.vnum 0), ('y', Val.vnum 44)]).1 "year" =
      some (Val.vnum (if (0 : Int) = 0 then -44 else 44)) ∧
    (if (0 : Int) = 0 then (-44 : Int) else 44) = -44 :=
  ⟨⟨by decide, rfl, rfl⟩,
    c7_era_adjustment [('G', Val.vnum 0), ('y', Val.vnum 44)] 0 44 (by decide) rfl rfl,
    by decide⟩
